import Mathlib

/-!
Shallow embedding of the cloth simulation in `src/main.rs` (Verlet cloth,
Jakobsen-style constraint relaxation).

Modelling conventions:
* `f32` values are modelled by exact rationals `ℚ`.
* The `f32::sqrt` routine is modelled by an abstract parameter `sq : ℚ → ℚ`;
  every theorem below holds for an arbitrary `sq`, hence in particular for the
  true square root.  Where a property needs `sqrt 0 = 0` this is an explicit
  hypothesis.
* The parallel arrays `pos`, `old_pos`, `forces` (fixed length
  `NUM_PARTICLES`) are modelled as functions `ℕ → Vec3`; the per-index loops
  of the source become pointwise definitions guarded by `p < NUM_PARTICLES`,
  and the sequential constraint loop becomes a `List.foldl`.
* Division is the total division of `ℚ`; the place where the source can divide
  by zero (`diff_len`, line 270 of `main.rs`) is exposed through the separate
  definitions `corrDeltaLen` / `corrDiff` so that the degenerate case can be
  analysed without appealing to the `q / 0 = 0` convention.  For whole-run
  statements the checked variants (`structuralPassChecked`,
  `relaxLoopChecked`, `frameStepChecked`, `runFramesChecked`) make that
  division an explicit error: they return `none` exactly when some correction
  meets `delta_len = 0`, the case where the f32 code produces `-inf` and then
  writes `NaN` into particle state, so `ℚ`'s `q / 0 = 0` convention is never
  load-bearing.  A checked run that returns `some` agrees with the unchecked
  one (the `_sound` lemmas below).
-/

namespace ClothVerify

/-- Vec3 of `main.rs`: a 3-component vector value type. -/
structure Vec3 where
  x : ℚ
  y : ℚ
  z : ℚ
  deriving DecidableEq, Repr

/-- Componentwise addition (`impl ops::Add for Vec3`). -/
def Vec3.add (a b : Vec3) : Vec3 := ⟨a.x + b.x, a.y + b.y, a.z + b.z⟩

/-- Componentwise subtraction (`impl ops::Sub for Vec3`). -/
def Vec3.sub (a b : Vec3) : Vec3 := ⟨a.x - b.x, a.y - b.y, a.z - b.z⟩

/-- Scalar multiplication (`impl ops::Mul<f32> for Vec3`). -/
def Vec3.smul (a : Vec3) (r : ℚ) : Vec3 := ⟨a.x * r, a.y * r, a.z * r⟩

instance : Add Vec3 := ⟨Vec3.add⟩
instance : Sub Vec3 := ⟨Vec3.sub⟩
instance : HMul Vec3 ℚ Vec3 := ⟨Vec3.smul⟩

@[simp] theorem vadd_x (a b : Vec3) : (a + b).x = a.x + b.x := rfl
@[simp] theorem vadd_y (a b : Vec3) : (a + b).y = a.y + b.y := rfl
@[simp] theorem vadd_z (a b : Vec3) : (a + b).z = a.z + b.z := rfl
@[simp] theorem vsub_x (a b : Vec3) : (a - b).x = a.x - b.x := rfl
@[simp] theorem vsub_y (a b : Vec3) : (a - b).y = a.y - b.y := rfl
@[simp] theorem vsub_z (a b : Vec3) : (a - b).z = a.z - b.z := rfl
@[simp] theorem vsmul_x (a : Vec3) (r : ℚ) : (a * r).x = a.x * r := rfl
@[simp] theorem vsmul_y (a : Vec3) (r : ℚ) : (a * r).y = a.y * r := rfl
@[simp] theorem vsmul_z (a : Vec3) (r : ℚ) : (a * r).z = a.z * r := rfl

theorem Vec3.ext_iff (a b : Vec3) : a = b ↔ a.x = b.x ∧ a.y = b.y ∧ a.z = b.z := by
  constructor
  · rintro rfl; exact ⟨rfl, rfl, rfl⟩
  · rintro ⟨hx, hy, hz⟩; cases a; cases b; simp_all

/-- Vec3::length with the square-root routine abstracted as `sq`. -/
def Vec3.length (sq : ℚ → ℚ) (v : Vec3) : ℚ :=
  sq (v.x * v.x + v.y * v.y + v.z * v.z)

/-- distance of `main.rs`. -/
def distance (sq : ℚ → ℚ) (a b : Vec3) : ℚ := Vec3.length sq (a - b)

/-- The scalar clamp used by `vclamp` (macroquad's
`if value < min then min else if value > max then max else value`). -/
def clamp (value lo hi : ℚ) : ℚ :=
  if value < lo then lo else if value > hi then hi else value

/-- vclamp of `main.rs`: componentwise clamp of a Vec3. -/
def vclamp (value lo hi : Vec3) : Vec3 :=
  ⟨clamp value.x lo.x hi.x, clamp value.y lo.y hi.y, clamp value.z lo.z hi.z⟩

theorem clamp_idem (value lo hi : ℚ) (h : lo ≤ hi) :
    clamp (clamp value lo hi) lo hi = clamp value lo hi := by
  unfold clamp
  split_ifs with h1 h2 h3 h4 h5 h6 <;> try rfl
  all_goals linarith

theorem clamp_of_mem (value lo hi : ℚ) (h1 : lo ≤ value) (h2 : value ≤ hi) :
    clamp value lo hi = value := by
  unfold clamp
  split_ifs with ha hb <;> first | rfl | linarith

theorem clamp_degenerate (value b : ℚ) : clamp value b b = b := by
  unfold clamp
  split_ifs with ha hb <;> first | rfl | linarith

/-- C8: the per-frame boundary clamp (bounds `(0,0,0)`–`(w,h,0)` with
`0 ≤ w`, `0 ≤ h`) is idempotent, and clamping a position already inside the
bounds is a no-op. -/
theorem c8_clamp_idempotent (w h : ℚ) (hw : 0 ≤ w) (hh : 0 ≤ h) (v : Vec3) :
    vclamp (vclamp v ⟨0, 0, 0⟩ ⟨w, h, 0⟩) ⟨0, 0, 0⟩ ⟨w, h, 0⟩
      = vclamp v ⟨0, 0, 0⟩ ⟨w, h, 0⟩
    ∧ (0 ≤ v.x ∧ v.x ≤ w ∧ 0 ≤ v.y ∧ v.y ≤ h ∧ 0 ≤ v.z ∧ v.z ≤ 0 →
        vclamp v ⟨0, 0, 0⟩ ⟨w, h, 0⟩ = v) := by
  constructor
  · unfold vclamp
    simp only [Vec3.mk.injEq]
    exact ⟨clamp_idem _ _ _ hw, clamp_idem _ _ _ hh, clamp_idem _ _ _ le_rfl⟩
  · rintro ⟨h1, h2, h3, h4, h5, h6⟩
    unfold vclamp
    cases v
    simp only [Vec3.mk.injEq]
    exact ⟨clamp_of_mem _ _ _ h1 h2, clamp_of_mem _ _ _ h3 h4,
      clamp_of_mem _ _ _ h5 h6⟩

/-- C8 witness: idempotence and the in-bounds no-op evaluated at the concrete
bounds `w = h = 100` and position `(150, -3, 0)` resp. `(5, 7, 0)`. -/
theorem c8_clamp_idempotent_witness :
    vclamp (vclamp ⟨150, -3, 0⟩ ⟨0, 0, 0⟩ ⟨100, 100, 0⟩) ⟨0, 0, 0⟩ ⟨100, 100, 0⟩
      = vclamp ⟨150, -3, 0⟩ ⟨0, 0, 0⟩ ⟨100, 100, 0⟩
    ∧ vclamp ⟨5, 7, 0⟩ ⟨0, 0, 0⟩ ⟨100, 100, 0⟩ = (⟨5, 7, 0⟩ : Vec3) := by
  refine ⟨(c8_clamp_idempotent 100 100 (by norm_num) (by norm_num) ⟨150, -3, 0⟩).1, ?_⟩
  exact (c8_clamp_idempotent 100 100 (by norm_num) (by norm_num) ⟨5, 7, 0⟩).2
    (by norm_num)

/-- C6 counterexample: the frame clamp does NOT leave the z component
unchanged — at position `(1, 1, 5)` with bounds `(0,0,0)`–`(100,100,0)` it
rewrites `z = 5` to `0`. -/
theorem c6_counterexample :
    (vclamp ⟨1, 1, 5⟩ ⟨0, 0, 0⟩ ⟨100, 100, 0⟩).z ≠ (⟨1, 1, 5⟩ : Vec3).z := by
  decide

/-- C6 (amended): the per-frame clamp maps x into `[0, width]`, y into
`[0, height]`, and clamps z into the degenerate interval `[0, 0]`, i.e. the
output z component is always `0` (so z is unchanged only when it is already
`0`). -/
theorem c6_clamp_componentwise (v : Vec3) (w h : ℚ) :
    vclamp v ⟨0, 0, 0⟩ ⟨w, h, 0⟩
        = ⟨clamp v.x 0 w, clamp v.y 0 h, clamp v.z 0 0⟩
      ∧ (vclamp v ⟨0, 0, 0⟩ ⟨w, h, 0⟩).z = 0 := by
  exact ⟨rfl, clamp_degenerate v.z 0⟩

/-! ### Constants of `main` -/

def NUM_COLS : ℕ := 10
def NUM_ROWS : ℕ := 10
def NUM_PARTICLES : ℕ := NUM_ROWS * NUM_COLS
def NUM_CONSTRAINTS : ℕ := (NUM_ROWS - 1) * NUM_COLS + (NUM_COLS - 1) * NUM_ROWS
def NUM_ITERATIONS : ℕ := 1
def START_DISTANCE : ℚ := 20
def PARTICLE_RADIUS : ℚ := 3
def INTERSECT_THRESHOLD : ℚ := PARTICLE_RADIUS + 3

/-- gravity of `main` (`10.0 * 9.82` downward, zero x and z). -/
def gravity : Vec3 := ⟨0, 10 * 9.82, 0⟩

/-- time_step of `main`. -/
def time_step : ℚ := 0.01666667

/-- Constraint of `main.rs`: a distance constraint between two particle
indices with a rest length. -/
structure Constraint where
  idx_1 : ℕ
  idx_2 : ℕ
  rest_length : ℚ
  deriving DecidableEq, Repr

/-- PointConstraint of `main.rs`: pins particle `idx` to `point`. -/
structure PointConstraint where
  idx : ℕ
  point : Vec3
  deriving DecidableEq, Repr

/-! ### Constraint generation (`main.rs` lines 186–211) -/

/-- The horizontal-edge loop: for each row `p_x`, for each `p_y` in
`0..NUM_COLS-1`, an edge from `p_x*cols + p_y` to its right neighbour with
rest length the literal `20.0`. -/
def genHorizontal (rows cols : ℕ) : List Constraint :=
  (List.range rows).flatMap fun px =>
    (List.range (cols - 1)).map fun py =>
      { idx_1 := px * cols + py, idx_2 := px * cols + py + 1, rest_length := 20 }

/-- The vertical-edge loop: for each column `p_y`, for each `p_x` in
`0..NUM_ROWS-1`, an edge from `p_x*cols + p_y` to the neighbour one row
below. -/
def genVertical (rows cols : ℕ) : List Constraint :=
  (List.range cols).flatMap fun py =>
    (List.range (rows - 1)).map fun px =>
      { idx_1 := px * cols + py, idx_2 := px * cols + py + cols, rest_length := 20 }

/-- The full generated constraint array, horizontal edges first (the source
fills one array with `c_idx` running through both loops). -/
def genConstraints (rows cols : ℕ) : List Constraint :=
  genHorizontal rows cols ++ genVertical rows cols

/-- C5: constraint generation over a `rows × cols` grid produces exactly
`(rows−1)·cols + (cols−1)·rows` structural constraints, every one with
`rest_length = START_DISTANCE = 20`, and the edge set is exactly: for every
row an edge from each column to its right neighbour, and for every column an
edge from each row to the row below. -/
theorem c5_generation (rows cols : ℕ) :
    (genConstraints rows cols).length = (rows - 1) * cols + (cols - 1) * rows
    ∧ (∀ c ∈ genConstraints rows cols, c.rest_length = START_DISTANCE)
    ∧ (∀ c : Constraint, c ∈ genConstraints rows cols ↔
        ((∃ r < rows, ∃ k < cols - 1,
            c = ⟨r * cols + k, r * cols + k + 1, 20⟩) ∨
         (∃ k < cols, ∃ r < rows - 1,
            c = ⟨r * cols + k, r * cols + k + cols, 20⟩))) := by
  refine ⟨?_, ?_, ?_⟩
  · simp only [genConstraints, genHorizontal, genVertical, List.length_append,
      List.length_flatMap, Function.comp_def, List.length_map, List.length_range,
      List.map_const', List.sum_replicate, smul_eq_mul]
    rw [Nat.mul_comm rows, Nat.mul_comm cols, Nat.add_comm]
  · intro c hc
    simp only [genConstraints, genHorizontal, genVertical, List.mem_append,
      List.mem_flatMap, List.mem_map, List.mem_range] at hc
    rcases hc with ⟨_, _, _, _, rfl⟩ | ⟨_, _, _, _, rfl⟩ <;> rfl
  · intro c
    simp only [genConstraints, genHorizontal, genVertical, List.mem_append,
      List.mem_flatMap, List.mem_map, List.mem_range]
    constructor
    · rintro (⟨r, hr, k, hk, rfl⟩ | ⟨k, hk, r, hr, rfl⟩)
      · exact Or.inl ⟨r, hr, k, hk, rfl⟩
      · exact Or.inr ⟨k, hk, r, hr, rfl⟩
    · rintro (⟨r, hr, k, hk, rfl⟩ | ⟨k, hk, r, hr, rfl⟩)
      · exact Or.inl ⟨r, hr, k, hk, rfl⟩
      · exact Or.inr ⟨k, hk, r, hr, rfl⟩

/-- C5 witness: the theorem applied to the program's actual `2 × 2` subgrid
sizes — `(genConstraints 2 2).length = 4` and the edge `(0,1)` is generated. -/
theorem c5_generation_witness :
    (genConstraints 2 2).length = (2 - 1) * 2 + (2 - 1) * 2
    ∧ (⟨0, 1, 20⟩ : Constraint) ∈ genConstraints 2 2 := by
  obtain ⟨h1, _, h3⟩ := c5_generation 2 2
  refine ⟨h1, (h3 ⟨0, 1, 20⟩).2 (Or.inl ⟨0, by decide, 0, by decide, rfl⟩)⟩

/-! ### Verlet integration (`main.rs` lines 246–250) -/

/-- One frame's Verlet pass over the particle arrays: for each `p` below
`nP`, `pos[p] += pos[p] - old_pos[p] + forces[p] * dt * dt` and
`old_pos[p]` receives the pre-update position.  Returns the new
`(pos, old_pos)` pair. -/
def verletPass (nP : ℕ) (dt : ℚ) (pos old forces : ℕ → Vec3) :
    (ℕ → Vec3) × (ℕ → Vec3) :=
  (fun p => if p < nP then pos p + (pos p - old p) + forces p * dt * dt else pos p,
   fun p => if p < nP then pos p else old p)

/-- C2: one integration step sets the new position to
`position + (position − previous_position) + force·dt²` and the new previous
position to the pre-update position; consequently a particle with
`position = previous_position` and zero force is unchanged. -/
theorem c2_verlet_step (nP : ℕ) (dt : ℚ) (pos old forces : ℕ → Vec3) (p : ℕ)
    (hp : p < nP) :
    (verletPass nP dt pos old forces).1 p
        = pos p + (pos p - old p) + forces p * dt * dt
    ∧ (verletPass nP dt pos old forces).2 p = pos p
    ∧ (old p = pos p → forces p = ⟨0, 0, 0⟩ →
        (verletPass nP dt pos old forces).1 p = pos p
        ∧ (verletPass nP dt pos old forces).2 p = old p) := by
  refine ⟨by simp [verletPass, hp], by simp [verletPass, hp], ?_⟩
  intro h0 hf
  refine ⟨?_, by simp [verletPass, hp, h0]⟩
  have hstep : (verletPass nP dt pos old forces).1 p
      = pos p + (pos p - old p) + forces p * dt * dt := by simp [verletPass, hp]
  rw [hstep, h0, hf, Vec3.ext_iff]
  simp

/-- C2 witness: the step evaluated concretely at `p = 0 < 1` on a particle at
`(3,4,0)` with previous position `(1,1,0)` and force `(0,2,0)`, and the
fixed-point clause at a resting particle. -/
theorem c2_verlet_step_witness :
    (verletPass 1 (2 : ℚ) (fun _ => ⟨3, 4, 0⟩) (fun _ => ⟨1, 1, 0⟩)
        (fun _ => ⟨0, 2, 0⟩)).1 0
      = (⟨3, 4, 0⟩ : Vec3) + ((⟨3, 4, 0⟩ : Vec3) - ⟨1, 1, 0⟩)
          + (⟨0, 2, 0⟩ : Vec3) * (2 : ℚ) * (2 : ℚ)
    ∧ (verletPass 1 (2 : ℚ) (fun _ => ⟨3, 4, 0⟩) (fun _ => ⟨3, 4, 0⟩)
        (fun _ => ⟨0, 0, 0⟩)).1 0 = (⟨3, 4, 0⟩ : Vec3) := by
  constructor
  · exact (c2_verlet_step 1 (2 : ℚ) (fun _ => ⟨3, 4, 0⟩) (fun _ => ⟨1, 1, 0⟩)
      (fun _ => ⟨0, 2, 0⟩) 0 (by decide)).1
  · exact ((c2_verlet_step 1 (2 : ℚ) (fun _ => ⟨3, 4, 0⟩) (fun _ => ⟨3, 4, 0⟩)
      (fun _ => ⟨0, 0, 0⟩) 0 (by decide)).2.2 rfl rfl).1

/-! ### Structural correction (`main.rs` lines 263–274) -/

/-- delta of the correction: `pos[idx_2] - pos[idx_1]`. -/
def corrDelta (pos : ℕ → Vec3) (c : Constraint) : Vec3 :=
  pos c.idx_2 - pos c.idx_1

/-- delta_len of the correction, exactly as line 269 computes it — including
the source's `delta.z + delta.z` term (the z component is added, not
squared). -/
def corrDeltaLen (sq : ℚ → ℚ) (pos : ℕ → Vec3) (c : Constraint) : ℚ :=
  sq ((corrDelta pos c).x * (corrDelta pos c).x
    + (corrDelta pos c).y * (corrDelta pos c).y
    + (corrDelta pos c).z + (corrDelta pos c).z)

/-- diff_len of line 270: `(delta_len - rest_length) / delta_len`, an
unguarded division by `delta_len`. -/
def corrDiff (sq : ℚ → ℚ) (pos : ℕ → Vec3) (c : Constraint) : ℚ :=
  (corrDeltaLen sq pos c - c.rest_length) / corrDeltaLen sq pos c

/-- One structural correction (loop body of lines 263–274):
`pos[idx_1] += delta * 0.5 * diff_len`, then
`pos[idx_2] -= delta * 0.5 * diff_len` (sequentially, so the second read sees
the first write when the indices coincide). -/
def satisfyOne (sq : ℚ → ℚ) (pos : ℕ → Vec3) (c : Constraint) : ℕ → Vec3 :=
  let delta := corrDelta pos c
  let diff_len := corrDiff sq pos c
  let pos1 := Function.update pos c.idx_1
    (pos c.idx_1 + delta * (0.5 : ℚ) * diff_len)
  Function.update pos1 c.idx_2 (pos1 c.idx_2 - delta * (0.5 : ℚ) * diff_len)

/-- The full structural pass: the corrections applied over the constraint
array in order. -/
def structuralPass (sq : ℚ → ℚ) (cs : List Constraint) (pos : ℕ → Vec3) :
    ℕ → Vec3 :=
  cs.foldl (satisfyOne sq) pos

/-- C1: at a constraint whose two particles coincide exactly, the correction
code of lines 268–273 performs an UNGUARDED division by zero: the divisor
`delta_len` is `0` (for any square-root routine with `sq 0 = 0`) while the
dividend `delta_len − rest_length` is `−20 ≠ 0`, and the correction is still
applied to both particles (no branch skips it) — contrary to the claim that
the degenerate case is detected and skipped. -/
theorem c1_coincident_division_by_zero (sq : ℚ → ℚ) (hsq : sq 0 = 0) :
    corrDeltaLen sq (fun _ => ⟨5, 5, 0⟩) ⟨0, 1, 20⟩ = 0
    ∧ corrDeltaLen sq (fun _ => ⟨5, 5, 0⟩) ⟨0, 1, 20⟩
        - (20 : ℚ) ≠ 0 := by
  have h0 : corrDeltaLen sq (fun _ => ⟨5, 5, 0⟩) ⟨0, 1, 20⟩ = sq 0 := by
    unfold corrDeltaLen corrDelta
    norm_num
  rw [h0, hsq]
  norm_num

/-- C1 witness: the division-by-zero facts instantiated at the identity as
the square-root routine. -/
theorem c1_coincident_division_by_zero_witness :
    corrDeltaLen (fun q => q) (fun _ => ⟨5, 5, 0⟩) ⟨0, 1, 20⟩ = 0
    ∧ corrDeltaLen (fun q => q) (fun _ => ⟨5, 5, 0⟩) ⟨0, 1, 20⟩
        - (20 : ℚ) ≠ 0 :=
  c1_coincident_division_by_zero (fun q => q) rfl

/-- C7: for a single constraint between two distinct particle slots holding
distinct positions, one structural correction leaves the midpoint of the two
positions invariant (the ±0.5 split cancels). -/
theorem c7_midpoint_invariant (sq : ℚ → ℚ) (pos : ℕ → Vec3) (c : Constraint)
    (hne : c.idx_1 ≠ c.idx_2) (_hpos : pos c.idx_1 ≠ pos c.idx_2) :
    (satisfyOne sq pos c c.idx_1 + satisfyOne sq pos c c.idx_2) * (0.5 : ℚ)
      = (pos c.idx_1 + pos c.idx_2) * (0.5 : ℚ) := by
  have h1 : satisfyOne sq pos c c.idx_1
      = pos c.idx_1 + corrDelta pos c * (0.5 : ℚ) * corrDiff sq pos c := by
    unfold satisfyOne
    rw [Function.update_noteq hne, Function.update_same]
  have h2 : satisfyOne sq pos c c.idx_2
      = pos c.idx_2 - corrDelta pos c * (0.5 : ℚ) * corrDiff sq pos c := by
    unfold satisfyOne
    rw [Function.update_same, Function.update_noteq (Ne.symm hne)]
  rw [h1, h2, Vec3.ext_iff]
  refine ⟨?_, ?_, ?_⟩ <;> simp

/-- C7 witness: midpoint invariance evaluated at the concrete constraint
`(0, 1)` with rest length 20, particles at `(0,0,0)` and `(10,0,0)`, and the
identity as the square-root routine. -/
theorem c7_midpoint_invariant_witness :
    (0 : ℕ) ≠ 1
    ∧ (satisfyOne (fun q => q) (fun p => if p = 0 then ⟨0, 0, 0⟩ else ⟨10, 0, 0⟩)
          ⟨0, 1, 20⟩ 0
        + satisfyOne (fun q => q) (fun p => if p = 0 then ⟨0, 0, 0⟩ else ⟨10, 0, 0⟩)
          ⟨0, 1, 20⟩ 1) * (0.5 : ℚ)
      = ((fun p => if p = 0 then (⟨0, 0, 0⟩ : Vec3) else ⟨10, 0, 0⟩) 0
        + (fun p => if p = 0 then (⟨0, 0, 0⟩ : Vec3) else ⟨10, 0, 0⟩) 1)
          * (0.5 : ℚ) := by
  refine ⟨by decide, ?_⟩
  exact c7_midpoint_invariant (fun q => q)
    (fun p => if p = 0 then ⟨0, 0, 0⟩ else ⟨10, 0, 0⟩) ⟨0, 1, 20⟩
    (by decide) (by decide)

/-! ### Pin and drag enforcement, relaxation loop (`main.rs` lines 262–283) -/

/-- The drag state of `main`: `holding_particle` plus `held_constraint`. -/
structure DragState where
  holding : Bool
  heldIdx : ℕ
  heldPoint : Vec3
  deriving DecidableEq, Repr

/-- Pin enforcement (lines 276–278): `pos[c.idx] = c.point` for each point
constraint in order. -/
def pinPass (pins : List PointConstraint) (pos : ℕ → Vec3) : ℕ → Vec3 :=
  pins.foldl (fun ps pc => Function.update ps pc.idx pc.point) pos

/-- Drag enforcement (lines 280–282): if holding, `pos[held.idx] = held.point`. -/
def dragPass (d : DragState) (pos : ℕ → Vec3) : ℕ → Vec3 :=
  if d.holding then Function.update pos d.heldIdx d.heldPoint else pos

/-- One relaxation iteration: structural corrections, then pins, then drag. -/
def relaxIter (sq : ℚ → ℚ) (cs : List Constraint) (pins : List PointConstraint)
    (d : DragState) (pos : ℕ → Vec3) : ℕ → Vec3 :=
  dragPass d (pinPass pins (structuralPass sq cs pos))

/-- The `for _i in 0..NUM_ITERATIONS` loop: `n` relaxation iterations. -/
def relaxLoop (sq : ℚ → ℚ) (cs : List Constraint) (pins : List PointConstraint)
    (d : DragState) : ℕ → (ℕ → Vec3) → ℕ → Vec3
  | 0, pos => pos
  | n + 1, pos => relaxIter sq cs pins d (relaxLoop sq cs pins d n pos)

theorem pinPass_last_write (pins : List PointConstraint) (pos : ℕ → Vec3)
    (pc : PointConstraint) (hmem : pc ∈ pins)
    (huniq : ∀ q ∈ pins, q.idx = pc.idx → q.point = pc.point) :
    pinPass pins pos pc.idx = pc.point := by
  induction pins using List.reverseRecOn generalizing pos with
  | nil => cases hmem
  | append_singleton pins q ih =>
    rw [pinPass, List.foldl_append, List.foldl_cons, List.foldl_nil]
    by_cases hq : q.idx = pc.idx
    · rw [hq, Function.update_same]
      exact huniq q (List.mem_append_right _ (List.mem_singleton_self q)) hq
    · rw [Function.update_noteq (fun h => hq h.symm)]
      rcases List.mem_append.1 hmem with hmem' | hmem'
      · exact ih _ hmem' fun r hr => huniq r (List.mem_append_left _ hr)
      · cases List.mem_singleton.1 hmem'
        exact absurd rfl hq

theorem relaxIter_pin (sq : ℚ → ℚ) (cs : List Constraint)
    (pins : List PointConstraint) (d : DragState) (pos : ℕ → Vec3)
    (pc : PointConstraint) (hmem : pc ∈ pins)
    (huniq : ∀ q ∈ pins, q.idx = pc.idx → q.point = pc.point)
    (hdrag : d.holding = true → d.heldIdx ≠ pc.idx) :
    relaxIter sq cs pins d pos pc.idx = pc.point := by
  unfold relaxIter dragPass
  by_cases hh : d.holding
  · rw [if_pos hh, Function.update_noteq (fun h => hdrag hh h.symm)]
    exact pinPass_last_write _ _ _ hmem huniq
  · rw [if_neg hh]
    exact pinPass_last_write _ _ _ hmem huniq

/-- C3: after any positive number of relaxation iterations, a pinned
particle's position equals its pin target exactly, whatever the structural
pass computed — provided the pin is not overwritten by a later pin on the
same particle or by an active drag on the same particle. -/
theorem c3_pin_dominance (sq : ℚ → ℚ) (cs : List Constraint)
    (pins : List PointConstraint) (d : DragState) (n : ℕ) (pos : ℕ → Vec3)
    (pc : PointConstraint) (hmem : pc ∈ pins)
    (huniq : ∀ q ∈ pins, q.idx = pc.idx → q.point = pc.point)
    (hdrag : d.holding = true → d.heldIdx ≠ pc.idx) (hn : 1 ≤ n) :
    relaxLoop sq cs pins d n pos pc.idx = pc.point := by
  cases n with
  | zero => cases hn
  | succ m =>
    rw [relaxLoop]
    exact relaxIter_pin sq cs pins d _ pc hmem huniq hdrag

/-- C3 witness: one iteration with the single pin `(0 ↦ (1,2,0))`, no
structural constraints, drag inactive, all particles initially at the
origin. -/
theorem c3_pin_dominance_witness :
    relaxLoop (fun q => q) [] [⟨0, ⟨1, 2, 0⟩⟩] ⟨false, 0, ⟨0, 0, 0⟩⟩ 1
      (fun _ => ⟨0, 0, 0⟩) 0 = (⟨1, 2, 0⟩ : Vec3) := by
  have h := c3_pin_dominance (fun q => q) [] [⟨0, ⟨1, 2, 0⟩⟩]
    ⟨false, 0, ⟨0, 0, 0⟩⟩ 1 (fun _ => ⟨0, 0, 0⟩) ⟨0, ⟨1, 2, 0⟩⟩
    (by decide) (by decide) (by simp) (by decide)
  exact h

/-- C4: if the drag constraint is active, then at the end of every
relaxation iteration (any iteration count `k ≥ 1`, hence after the whole
solver loop) the dragged particle sits at the drag target; in particular if a
pin targets the same particle with a different point, the drag point — not
the pin point — is final. -/
theorem c4_drag_wins (sq : ℚ → ℚ) (cs : List Constraint)
    (pins : List PointConstraint) (d : DragState) (pos : ℕ → Vec3)
    (pc : PointConstraint) (hhold : d.holding = true) :
    ∀ k, 1 ≤ k →
      relaxLoop sq cs pins d k pos d.heldIdx = d.heldPoint
      ∧ (pc ∈ pins → pc.idx = d.heldIdx → pc.point ≠ d.heldPoint →
          relaxLoop sq cs pins d k pos pc.idx ≠ pc.point) := by
  intro k hk
  have hiter : ∀ q : ℕ → Vec3, relaxIter sq cs pins d q d.heldIdx = d.heldPoint := by
    intro q
    unfold relaxIter dragPass
    rw [if_pos hhold, Function.update_same]
  have hmain : relaxLoop sq cs pins d k pos d.heldIdx = d.heldPoint := by
    cases k with
    | zero => cases hk
    | succ m => rw [relaxLoop]; exact hiter _
  refine ⟨hmain, fun _ hidx hne => ?_⟩
  rw [hidx, hmain]
  exact fun h => hne h.symm

/-- C4 witness: drag on particle 0 to `(3,4,0)` beats the pin of particle 0
to `(1,1,0)` after one iteration. -/
theorem c4_drag_wins_witness :
    relaxLoop (fun q => q) [] [⟨0, ⟨1, 1, 0⟩⟩] ⟨true, 0, ⟨3, 4, 0⟩⟩ 1
        (fun _ => ⟨0, 0, 0⟩) 0 = (⟨3, 4, 0⟩ : Vec3)
    ∧ relaxLoop (fun q => q) [] [⟨0, ⟨1, 1, 0⟩⟩] ⟨true, 0, ⟨3, 4, 0⟩⟩ 1
        (fun _ => ⟨0, 0, 0⟩) 0 ≠ (⟨1, 1, 0⟩ : Vec3) := by
  have h := c4_drag_wins (fun q => q) [] [⟨0, ⟨1, 1, 0⟩⟩]
    ⟨true, 0, ⟨3, 4, 0⟩⟩ (fun _ => ⟨0, 0, 0⟩) ⟨0, ⟨1, 1, 0⟩⟩ rfl 1 (by decide)
  exact ⟨h.1, h.2 (by decide) rfl (by decide)⟩

/-! ### Input handling (`main.rs` lines 220–241) -/

/-- The acquisition scan `for p in 0..n { if f p { break with p } }`: the
first index below `n` satisfying `f`, in ascending scan order. -/
def firstHit (f : ℕ → Bool) : ℕ → Option ℕ
  | 0 => none
  | n + 1 =>
    match firstHit f n with
    | some p => some p
    | none => if f n then some n else none

theorem firstHit_eq_none_imp (f : ℕ → Bool) (n : ℕ) (h : firstHit f n = none) :
    ∀ q < n, f q = false := by
  induction n with
  | zero => intro q hq; cases hq
  | succ m ih =>
    intro q hq
    rw [firstHit] at h
    cases hm : firstHit f m with
    | some p => rw [hm] at h; cases h
    | none =>
      rw [hm] at h
      rcases Nat.lt_succ_iff_lt_or_eq.1 hq with hq' | rfl
      · exact ih hm q hq'
      · by_cases hf : f q
        · rw [if_pos hf] at h; cases h
        · exact Bool.eq_false_iff.2 hf

theorem firstHit_eq_none_of (f : ℕ → Bool) (n : ℕ)
    (h : ∀ q < n, f q = false) : firstHit f n = none := by
  induction n with
  | zero => rfl
  | succ m ih =>
    rw [firstHit, ih fun q hq => h q (Nat.lt_succ_of_lt hq)]
    rw [h m (Nat.lt_succ_self m)]
    rfl

theorem firstHit_eq_some_imp (f : ℕ → Bool) (n p : ℕ)
    (h : firstHit f n = some p) :
    p < n ∧ f p = true ∧ ∀ q < p, f q = false := by
  induction n with
  | zero => cases h
  | succ m ih =>
    rw [firstHit] at h
    cases hm : firstHit f m with
    | some p' =>
      rw [hm] at h
      cases h
      obtain ⟨h1, h2, h3⟩ := ih hm
      exact ⟨Nat.lt_succ_of_lt h1, h2, h3⟩
    | none =>
      rw [hm] at h
      by_cases hf : f m
      · rw [if_pos hf] at h
        cases h
        exact ⟨Nat.lt_succ_self _, hf, firstHit_eq_none_imp f _ hm⟩
      · rw [if_neg hf] at h; cases h

theorem firstHit_eq_some_of (f : ℕ → Bool) (n p : ℕ) (hp : p < n)
    (hf : f p = true) (hmin : ∀ q < p, f q = false) :
    firstHit f n = some p := by
  induction n with
  | zero => cases hp
  | succ m ih =>
    rw [firstHit]
    rcases Nat.lt_succ_iff_lt_or_eq.1 hp with hp' | rfl
    · rw [ih hp']
    · rw [firstHit_eq_none_of f p hmin, hf]
      rfl

/-- The input-handling block (lines 220–241): with the primary button down,
if already holding only the target point follows the mouse; otherwise the
first particle within `INTERSECT_THRESHOLD` of the mouse (ascending scan) is
acquired; with the button up, the hold is released. -/
def handleInput (sq : ℚ → ℚ) (mouseDown : Bool) (mouseVec : Vec3)
    (pos : ℕ → Vec3) (n : ℕ) (s : DragState) : DragState :=
  if mouseDown then
    if s.holding then { s with heldPoint := mouseVec }
    else
      match firstHit
          (fun p => decide (distance sq mouseVec (pos p) < INTERSECT_THRESHOLD)) n with
      | some p => { holding := true, heldIdx := p, heldPoint := mouseVec }
      | none => s
  else
    { s with holding := false }

/-- C9: while the button stays down and a particle is held, the held id is
sticky — a single frame keeps it and only moves the target point to the
mouse, and any sequence of held frames (arbitrary mouse/positions in each)
keeps it; and the Idle → Holding acquisition picks exactly the first particle
in scan order whose distance to the pointer is below `INTERSECT_THRESHOLD`. -/
theorem c9_drag_sticky_and_first_hit (sq : ℚ → ℚ) (mouse : Vec3)
    (pos : ℕ → Vec3) (n : ℕ) (s : DragState) :
    (s.holding = true →
      handleInput sq true mouse pos n s = ⟨true, s.heldIdx, mouse⟩)
    ∧ (∀ frames : List (Vec3 × (ℕ → Vec3)), s.holding = true →
        (frames.foldl (fun st fr => handleInput sq true fr.1 fr.2 n st) s).holding
            = true
        ∧ (frames.foldl (fun st fr => handleInput sq true fr.1 fr.2 n st) s).heldIdx
            = s.heldIdx)
    ∧ (s.holding = false → ∀ p : ℕ,
        handleInput sq true mouse pos n s = ⟨true, p, mouse⟩
        ↔ (p < n ∧ distance sq mouse (pos p) < INTERSECT_THRESHOLD
            ∧ ∀ q < p, ¬ distance sq mouse (pos q) < INTERSECT_THRESHOLD)) := by
  have hstep : ∀ (m : Vec3) (ps : ℕ → Vec3) (st : DragState), st.holding = true →
      handleInput sq true m ps n st = ⟨true, st.heldIdx, m⟩ := by
    intro m ps st hst
    unfold handleInput
    rw [if_pos rfl, if_pos hst]
    cases st
    simp_all
  refine ⟨hstep mouse pos s, ?_, ?_⟩
  · intro frames
    induction frames generalizing s with
    | nil => exact fun hs => ⟨hs, rfl⟩
    | cons fr rest ih =>
      intro hs
      rw [List.foldl_cons, hstep fr.1 fr.2 s hs]
      exact ih ⟨true, s.heldIdx, fr.1⟩ rfl
  · intro hs p
    unfold handleInput
    rw [if_pos rfl, if_neg (by rw [hs]; exact Bool.false_ne_true)]
    constructor
    · intro heq
      cases hfh : firstHit
          (fun q => decide (distance sq mouse (pos q) < INTERSECT_THRESHOLD)) n with
      | some p' =>
        rw [hfh] at heq
        have hp' : p' = p := by
          have := congrArg DragState.heldIdx heq
          simpa using this
        subst hp'
        obtain ⟨h1, h2, h3⟩ := firstHit_eq_some_imp _ _ _ hfh
        refine ⟨h1, of_decide_eq_true h2, fun q hq => ?_⟩
        exact of_decide_eq_false (h3 q hq)
      | none =>
        rw [hfh] at heq
        have heq' : s = ⟨true, p, mouse⟩ := heq
        rw [heq'] at hs
        simp at hs
    · rintro ⟨h1, h2, h3⟩
      rw [firstHit_eq_some_of _ n p h1 (decide_eq_true h2)
        fun q hq => decide_eq_false (h3 q hq)]

/-- C9 witness: with one particle at the origin and the mouse on it, the idle
controller acquires particle 0 and a held controller keeps its id across a
frame. -/
theorem c9_drag_sticky_and_first_hit_witness :
    handleInput (fun q => q) true ⟨0, 0, 0⟩ (fun _ => ⟨0, 0, 0⟩) 1
        ⟨false, 7, ⟨9, 9, 0⟩⟩ = ⟨true, 0, ⟨0, 0, 0⟩⟩
    ∧ handleInput (fun q => q) true ⟨2, 3, 0⟩ (fun _ => ⟨0, 0, 0⟩) 1
        ⟨true, 5, ⟨9, 9, 0⟩⟩ = ⟨true, 5, ⟨2, 3, 0⟩⟩ := by
  constructor
  · exact ((c9_drag_sticky_and_first_hit (fun q => q) ⟨0, 0, 0⟩
      (fun _ => ⟨0, 0, 0⟩) 1 ⟨false, 7, ⟨9, 9, 0⟩⟩).2.2 rfl 0).2
      ⟨by decide, by simp [distance, Vec3.length, INTERSECT_THRESHOLD, PARTICLE_RADIUS],
        fun q hq => absurd hq (Nat.not_lt_zero q)⟩
  · exact (c9_drag_sticky_and_first_hit (fun q => q) ⟨2, 3, 0⟩
      (fun _ => ⟨0, 0, 0⟩) 1 ⟨true, 5, ⟨9, 9, 0⟩⟩).1 rfl

/-! ### Whole-frame step and initialization (`main.rs` lines 145–304) -/

/-- The mutable loop state of `main`: the three particle arrays plus the drag
state. -/
structure SimState where
  pos : ℕ → Vec3
  old : ℕ → Vec3
  forces : ℕ → Vec3
  drag : DragState

/-- The external inputs read during one frame: button state, mouse position,
and display size. -/
structure FrameInput where
  mouseDown : Bool
  mouseX : ℚ
  mouseY : ℚ
  width : ℚ
  height : ℚ

/-- The boundary clamp loop (lines 258–260). -/
def clampPass (nP : ℕ) (w h : ℚ) (pos : ℕ → Vec3) : ℕ → Vec3 :=
  fun p => if p < nP then vclamp (pos p) ⟨0, 0, 0⟩ ⟨w, h, 0⟩ else pos p

/-- Force accumulation (lines 253–255): every particle's force is set to
gravity. -/
def forceAccum (nP : ℕ) (forces : ℕ → Vec3) : ℕ → Vec3 :=
  fun p => if p < nP then gravity else forces p

/-- One frame of the main loop, in source order: input handling, Verlet
integration, force accumulation, boundary clamp, then `NUM_ITERATIONS`
relaxation iterations. -/
def frameStep (sq : ℚ → ℚ) (cs : List Constraint) (pins : List PointConstraint)
    (inp : FrameInput) (s : SimState) : SimState :=
  let mouseVec : Vec3 := ⟨inp.mouseX, inp.mouseY, 0⟩
  let drag1 := handleInput sq inp.mouseDown mouseVec s.pos NUM_PARTICLES s.drag
  let stepped := verletPass NUM_PARTICLES time_step s.pos s.old s.forces
  let forces1 := forceAccum NUM_PARTICLES s.forces
  let clamped := clampPass NUM_PARTICLES inp.width inp.height stepped.1
  let relaxed := relaxLoop sq cs pins drag1 NUM_ITERATIONS clamped
  { pos := relaxed, old := stepped.2, forces := forces1, drag := drag1 }

/-- Folding the main loop over a list of per-frame inputs. -/
def runFrames (sq : ℚ → ℚ) (cs : List Constraint) (pins : List PointConstraint)
    (inps : List FrameInput) (s : SimState) : SimState :=
  inps.foldl (fun st inp => frameStep sq cs pins inp st) s

/-- Initial particle position (lines 172–184): grid layout around the screen
centre with jitter `jx`/`jy` on x and y; the z component is never written and
stays `0`. -/
def initPos (jx jy : ℕ → ℚ) (sw sh : ℚ) (p : ℕ) : Vec3 :=
  ⟨sw / 2 + (p % 10 : ℕ) * START_DISTANCE + jx p,
   sh / 2 + (p / 10 : ℕ) * START_DISTANCE + jy p,
   0⟩

/-- Initial simulation state: `old_pos = pos`, zero forces, no hold. -/
def initState (jx jy : ℕ → ℚ) (sw sh : ℚ) : SimState :=
  { pos := initPos jx jy sw sh
    old := initPos jx jy sw sh
    forces := fun _ => ⟨0, 0, 0⟩
    drag := { holding := false, heldIdx := 0, heldPoint := ⟨0, 0, 0⟩ } }

/-- The three pins of lines 213–215: particles `0`, `NUM_COLS/2` and
`NUM_COLS-1` pinned at their initial positions. -/
def initPins (jx jy : ℕ → ℚ) (sw sh : ℚ) : List PointConstraint :=
  [⟨0, initPos jx jy sw sh 0⟩,
   ⟨NUM_COLS / 2, initPos jx jy sw sh (NUM_COLS / 2)⟩,
   ⟨NUM_COLS - 1, initPos jx jy sw sh (NUM_COLS - 1)⟩]

/-- The z-plane invariant: every position, previous position and force has
zero z component, and so does the drag target. -/
def ZZero (s : SimState) : Prop :=
  (∀ p, (s.pos p).z = 0) ∧ (∀ p, (s.old p).z = 0) ∧ (∀ p, (s.forces p).z = 0)
    ∧ s.drag.heldPoint.z = 0

theorem satisfyOne_z (sq : ℚ → ℚ) (pos : ℕ → Vec3) (c : Constraint)
    (h : ∀ p, (pos p).z = 0) (p : ℕ) : (satisfyOne sq pos c p).z = 0 := by
  have hdz : (corrDelta pos c).z = 0 := by simp [corrDelta, h]
  have hv : (corrDelta pos c * (0.5 : ℚ) * corrDiff sq pos c).z = 0 := by
    simp [hdz]
  unfold satisfyOne
  rcases eq_or_ne p c.idx_2 with rfl | hp2
  · rw [Function.update_same, Function.update_apply]
    split_ifs <;> simp [hv, h]
  · rw [Function.update_noteq hp2, Function.update_apply]
    split_ifs
    · simp [hv, h]
    · exact h p

theorem structuralPass_z (sq : ℚ → ℚ) (cs : List Constraint) :
    ∀ pos : ℕ → Vec3, (∀ p, (pos p).z = 0) →
      ∀ p, (structuralPass sq cs pos p).z = 0 := by
  induction cs with
  | nil => exact fun pos h p => h p
  | cons c rest ih =>
    intro pos h p
    exact ih (satisfyOne sq pos c) (satisfyOne_z sq pos c h) p

theorem pinPass_z (pins : List PointConstraint)
    (hpins : ∀ pc ∈ pins, pc.point.z = 0) :
    ∀ pos : ℕ → Vec3, (∀ p, (pos p).z = 0) →
      ∀ p, (pinPass pins pos p).z = 0 := by
  induction pins with
  | nil => exact fun pos h p => h p
  | cons pc rest ih =>
    intro pos h p
    refine ih (fun q hq => hpins q (List.mem_cons_of_mem pc hq)) _ ?_ p
    intro q
    show (Function.update pos pc.idx pc.point q).z = 0
    rw [Function.update_apply]
    split_ifs with hq
    · exact hpins pc (List.mem_cons_self pc rest)
    · exact h q

theorem dragPass_z (d : DragState) (hd : d.heldPoint.z = 0)
    (pos : ℕ → Vec3) (h : ∀ p, (pos p).z = 0) (p : ℕ) :
    (dragPass d pos p).z = 0 := by
  unfold dragPass
  split_ifs
  · rw [Function.update_apply]
    split_ifs
    · exact hd
    · exact h p
  · exact h p

theorem relaxLoop_z (sq : ℚ → ℚ) (cs : List Constraint)
    (pins : List PointConstraint) (d : DragState)
    (hpins : ∀ pc ∈ pins, pc.point.z = 0) (hd : d.heldPoint.z = 0) (n : ℕ) :
    ∀ pos : ℕ → Vec3, (∀ p, (pos p).z = 0) →
      ∀ p, (relaxLoop sq cs pins d n pos p).z = 0 := by
  induction n with
  | zero => exact fun pos h p => h p
  | succ m ih =>
    intro pos h p
    rw [relaxLoop]
    exact dragPass_z d hd _
      (pinPass_z pins hpins _ (structuralPass_z sq cs _ (ih pos h))) p

theorem verletPass_z (nP : ℕ) (dt : ℚ) (pos old forces : ℕ → Vec3)
    (h1 : ∀ p, (pos p).z = 0) (h2 : ∀ p, (old p).z = 0)
    (h3 : ∀ p, (forces p).z = 0) (p : ℕ) :
    ((verletPass nP dt pos old forces).1 p).z = 0
    ∧ ((verletPass nP dt pos old forces).2 p).z = 0 := by
  unfold verletPass
  constructor <;> dsimp only <;> split_ifs <;> simp [h1, h2, h3]

theorem clampPass_z (nP : ℕ) (w h : ℚ) (pos : ℕ → Vec3)
    (h0 : ∀ p, (pos p).z = 0) (p : ℕ) : (clampPass nP w h pos p).z = 0 := by
  unfold clampPass
  split_ifs
  · exact clamp_degenerate _ 0
  · exact h0 p

theorem handleInput_z (sq : ℚ → ℚ) (md : Bool) (mouseVec : Vec3)
    (hm : mouseVec.z = 0) (pos : ℕ → Vec3) (n : ℕ) (s : DragState)
    (hs : s.heldPoint.z = 0) :
    (handleInput sq md mouseVec pos n s).heldPoint.z = 0 := by
  unfold handleInput
  split_ifs
  · exact hm
  · cases firstHit
        (fun p => decide (distance sq mouseVec (pos p) < INTERSECT_THRESHOLD)) n
    · exact hs
    · exact hm
  · exact hs

theorem frameStep_drag (sq : ℚ → ℚ) (cs : List Constraint)
    (pins : List PointConstraint) (inp : FrameInput) (s : SimState) :
    (frameStep sq cs pins inp s).drag
      = handleInput sq inp.mouseDown ⟨inp.mouseX, inp.mouseY, 0⟩ s.pos
          NUM_PARTICLES s.drag := rfl

theorem frameStep_old (sq : ℚ → ℚ) (cs : List Constraint)
    (pins : List PointConstraint) (inp : FrameInput) (s : SimState) :
    (frameStep sq cs pins inp s).old
      = (verletPass NUM_PARTICLES time_step s.pos s.old s.forces).2 := rfl

theorem frameStep_forces (sq : ℚ → ℚ) (cs : List Constraint)
    (pins : List PointConstraint) (inp : FrameInput) (s : SimState) :
    (frameStep sq cs pins inp s).forces = forceAccum NUM_PARTICLES s.forces := rfl

theorem frameStep_pos (sq : ℚ → ℚ) (cs : List Constraint)
    (pins : List PointConstraint) (inp : FrameInput) (s : SimState) :
    (frameStep sq cs pins inp s).pos
      = relaxLoop sq cs pins
          (handleInput sq inp.mouseDown ⟨inp.mouseX, inp.mouseY, 0⟩ s.pos
            NUM_PARTICLES s.drag)
          NUM_ITERATIONS
          (clampPass NUM_PARTICLES inp.width inp.height
            (verletPass NUM_PARTICLES time_step s.pos s.old s.forces).1) := rfl

theorem frameStep_z (sq : ℚ → ℚ) (cs : List Constraint)
    (pins : List PointConstraint) (hpins : ∀ pc ∈ pins, pc.point.z = 0)
    (inp : FrameInput) (s : SimState) (hz : ZZero s) :
    ZZero (frameStep sq cs pins inp s) := by
  obtain ⟨hpos, hold, hforce, hdrag⟩ := hz
  have hmouse : (⟨inp.mouseX, inp.mouseY, 0⟩ : Vec3).z = 0 := rfl
  have hdrag1 : (handleInput sq inp.mouseDown ⟨inp.mouseX, inp.mouseY, 0⟩
      s.pos NUM_PARTICLES s.drag).heldPoint.z = 0 :=
    handleInput_z _ _ _ hmouse _ _ _ hdrag
  have hstep := fun p =>
    verletPass_z NUM_PARTICLES time_step s.pos s.old s.forces hpos hold hforce p
  refine ⟨?_, ?_, ?_, ?_⟩
  · intro p
    rw [frameStep_pos]
    exact relaxLoop_z sq cs pins _ hpins hdrag1 NUM_ITERATIONS _
      (clampPass_z _ _ _ _ fun q => (hstep q).1) p
  · intro p
    rw [frameStep_old]
    exact (hstep p).2
  · intro p
    rw [frameStep_forces]
    unfold forceAccum
    split_ifs
    · rfl
    · exact hforce p
  · rw [frameStep_drag]
    exact hdrag1

theorem initPins_z (jx jy : ℕ → ℚ) (sw sh : ℚ) :
    ∀ pc ∈ initPins jx jy sw sh, pc.point.z = 0 := by
  intro pc hpc
  simp only [initPins, List.mem_cons, List.not_mem_nil, or_false] at hpc
  rcases hpc with rfl | rfl | rfl <;> rfl

theorem runFrames_ZZero (sq : ℚ → ℚ) (cs : List Constraint)
    (pins : List PointConstraint) (hpins : ∀ pc ∈ pins, pc.point.z = 0) :
    ∀ (l : List FrameInput) (s : SimState), ZZero s →
      ZZero (runFrames sq cs pins l s) := by
  intro l
  induction l with
  | nil => exact fun s hs => hs
  | cons inp rest ih =>
    intro s hs
    exact ih _ (frameStep_z sq cs pins hpins inp s hs)

/-! ### Error-aware (checked) run: the unguarded division made explicit

The f32 source divides by `delta_len` without a guard (line 270); when
`delta_len = 0` the quotient is `-inf` and the subsequent multiply writes
`NaN` into both particles.  The checked passes below return `none` exactly in
that case, so a `none` result marks a run in which the program produces
non-finite values. -/

/-- The structural pass with the fallible division explicit: `none` as soon
as some constraint's `delta_len` is `0` (f32: division by zero, `NaN`
written), otherwise the positions of `structuralPass`. -/
def structuralPassChecked (sq : ℚ → ℚ) :
    List Constraint → (ℕ → Vec3) → Option (ℕ → Vec3)
  | [], pos => some pos
  | c :: rest, pos =>
    if corrDeltaLen sq pos c = 0 then none
    else structuralPassChecked sq rest (satisfyOne sq pos c)

/-- One checked relaxation iteration. -/
def relaxIterChecked (sq : ℚ → ℚ) (cs : List Constraint)
    (pins : List PointConstraint) (d : DragState) (pos : ℕ → Vec3) :
    Option (ℕ → Vec3) :=
  (structuralPassChecked sq cs pos).map fun q => dragPass d (pinPass pins q)

/-- The checked iteration loop. -/
def relaxLoopChecked (sq : ℚ → ℚ) (cs : List Constraint)
    (pins : List PointConstraint) (d : DragState) :
    ℕ → (ℕ → Vec3) → Option (ℕ → Vec3)
  | 0, pos => some pos
  | n + 1, pos =>
    (relaxLoopChecked sq cs pins d n pos).bind fun q =>
      relaxIterChecked sq cs pins d q

/-- One checked frame: same data flow as `frameStep`, with the relaxation
error propagated. -/
def frameStepChecked (sq : ℚ → ℚ) (cs : List Constraint)
    (pins : List PointConstraint) (inp : FrameInput) (s : SimState) :
    Option SimState :=
  let mouseVec : Vec3 := ⟨inp.mouseX, inp.mouseY, 0⟩
  let drag1 := handleInput sq inp.mouseDown mouseVec s.pos NUM_PARTICLES s.drag
  let stepped := verletPass NUM_PARTICLES time_step s.pos s.old s.forces
  let forces1 := forceAccum NUM_PARTICLES s.forces
  let clamped := clampPass NUM_PARTICLES inp.width inp.height stepped.1
  (relaxLoopChecked sq cs pins drag1 NUM_ITERATIONS clamped).map
    fun relaxed => { pos := relaxed, old := stepped.2, forces := forces1, drag := drag1 }

/-- The checked main loop over a list of frame inputs. -/
def runFramesChecked (sq : ℚ → ℚ) (cs : List Constraint)
    (pins : List PointConstraint) : List FrameInput → SimState → Option SimState
  | [], s => some s
  | inp :: rest, s =>
    (frameStepChecked sq cs pins inp s).bind fun s1 =>
      runFramesChecked sq cs pins rest s1

theorem structuralPassChecked_sound (sq : ℚ → ℚ) :
    ∀ (cs : List Constraint) (pos r : ℕ → Vec3),
      structuralPassChecked sq cs pos = some r → r = structuralPass sq cs pos := by
  intro cs
  induction cs with
  | nil =>
    intro pos r h
    rw [structuralPassChecked, Option.some.injEq] at h
    exact h.symm
  | cons c rest ih =>
    intro pos r h
    rw [structuralPassChecked] at h
    split_ifs at h
    exact ih _ r h

theorem relaxIterChecked_sound (sq : ℚ → ℚ) (cs : List Constraint)
    (pins : List PointConstraint) (d : DragState) (pos q : ℕ → Vec3)
    (h : relaxIterChecked sq cs pins d pos = some q) :
    q = relaxIter sq cs pins d pos := by
  rw [relaxIterChecked, Option.map_eq_some'] at h
  obtain ⟨r, hr, hq⟩ := h
  rw [← hq, structuralPassChecked_sound sq cs pos r hr]
  rfl

theorem relaxLoopChecked_sound (sq : ℚ → ℚ) (cs : List Constraint)
    (pins : List PointConstraint) (d : DragState) :
    ∀ (n : ℕ) (pos q : ℕ → Vec3),
      relaxLoopChecked sq cs pins d n pos = some q →
        q = relaxLoop sq cs pins d n pos := by
  intro n
  induction n with
  | zero =>
    intro pos q h
    rw [relaxLoopChecked, Option.some.injEq] at h
    exact h.symm
  | succ m ih =>
    intro pos q h
    rw [relaxLoopChecked, Option.bind_eq_some] at h
    obtain ⟨r, hr, hq⟩ := h
    rw [relaxLoop, ← ih pos r hr]
    exact relaxIterChecked_sound sq cs pins d r q hq

theorem frameStepChecked_sound (sq : ℚ → ℚ) (cs : List Constraint)
    (pins : List PointConstraint) (inp : FrameInput) (s s1 : SimState)
    (h : frameStepChecked sq cs pins inp s = some s1) :
    s1 = frameStep sq cs pins inp s := by
  simp only [frameStepChecked] at h
  rw [Option.map_eq_some'] at h
  obtain ⟨r, hr, hs1⟩ := h
  rw [← hs1, relaxLoopChecked_sound sq cs pins _ NUM_ITERATIONS _ r hr]
  rfl

theorem runFramesChecked_sound (sq : ℚ → ℚ) (cs : List Constraint)
    (pins : List PointConstraint) :
    ∀ (inps : List FrameInput) (s s1 : SimState),
      runFramesChecked sq cs pins inps s = some s1 →
        s1 = runFrames sq cs pins inps s := by
  intro inps
  induction inps with
  | nil =>
    intro s s1 h
    rw [runFramesChecked, Option.some.injEq] at h
    exact h.symm
  | cons inp rest ih =>
    intro s s1 h
    rw [runFramesChecked, Option.bind_eq_some] at h
    obtain ⟨s2, h2, h3⟩ := h
    rw [frameStepChecked_sound sq cs pins inp s s2 h2] at h3
    exact ih _ s1 h3

theorem vsub_self (v : Vec3) : v - v = (⟨0, 0, 0⟩ : Vec3) := by
  rw [Vec3.ext_iff]
  simp

theorem corrDeltaLen_of_coincident (sq : ℚ → ℚ) (hsq : sq 0 = 0)
    (pos : ℕ → Vec3) (c : Constraint) (h : pos c.idx_1 = pos c.idx_2) :
    corrDeltaLen sq pos c = 0 := by
  unfold corrDeltaLen corrDelta
  rw [← h, vsub_self]
  have harg : (⟨0, 0, 0⟩ : Vec3).x * (⟨0, 0, 0⟩ : Vec3).x
      + (⟨0, 0, 0⟩ : Vec3).y * (⟨0, 0, 0⟩ : Vec3).y
      + (⟨0, 0, 0⟩ : Vec3).z + (⟨0, 0, 0⟩ : Vec3).z = 0 := by norm_num
  rw [harg, hsq]

theorem clampPass_zero_size (nP : ℕ) (pos : ℕ → Vec3) (p : ℕ) (hp : p < nP) :
    clampPass nP 0 0 pos p = (⟨0, 0, 0⟩ : Vec3) := by
  unfold clampPass
  rw [if_pos hp]
  unfold vclamp
  rw [Vec3.ext_iff]
  exact ⟨clamp_degenerate _ 0, clamp_degenerate _ 0, clamp_degenerate _ 0⟩

theorem relaxLoopChecked_one (sq : ℚ → ℚ) (cs : List Constraint)
    (pins : List PointConstraint) (d : DragState) (pos : ℕ → Vec3) :
    relaxLoopChecked sq cs pins d 1 pos = relaxIterChecked sq cs pins d pos := rfl

theorem structuralPassChecked_cons_none (sq : ℚ → ℚ) (c : Constraint)
    (rest : List Constraint) (pos : ℕ → Vec3)
    (h : corrDeltaLen sq pos c = 0) :
    structuralPassChecked sq (c :: rest) pos = none := by
  rw [structuralPassChecked, if_pos h]

theorem frameStepChecked_zero_size_none (sq : ℚ → ℚ) (hsq : sq 0 = 0)
    (c : Constraint) (rest : List Constraint) (pins : List PointConstraint)
    (inp : FrameInput) (hw : inp.width = 0) (hh : inp.height = 0)
    (s : SimState) (h1 : c.idx_1 < NUM_PARTICLES) (h2 : c.idx_2 < NUM_PARTICLES) :
    frameStepChecked sq (c :: rest) pins inp s = none := by
  simp only [frameStepChecked]
  rw [hw, hh, show NUM_ITERATIONS = 1 from rfl, relaxLoopChecked_one,
    relaxIterChecked, structuralPassChecked_cons_none]
  · rfl
  · exact corrDeltaLen_of_coincident sq hsq _ c
      (by rw [clampPass_zero_size _ _ _ h1, clampPass_zero_size _ _ _ h2])

/-- C10 counterexample: the z-preservation claim is unconditional, but a run
of the real program from the real initialization (zero jitter, which the
source's `random_f32(-1,1)` can produce) reaches the unguarded division by
zero inside the very first frame when the viewport has zero size: the clamp
sends every particle to `(0,0,0)`, the first structural constraint's two
particles coincide, `delta_len = 0`, and the f32 code computes
`diff_len = -inf` and writes `z = 0·(-inf) = NaN ≠ 0` — the checked run
returns `none` instead of a state. -/
theorem c10_counterexample :
    runFramesChecked (fun q => q) (genConstraints NUM_ROWS NUM_COLS)
        (initPins (fun _ => 0) (fun _ => 0) 400 300)
        [{ mouseDown := false, mouseX := 0, mouseY := 0, width := 0, height := 0 }]
        (initState (fun _ => 0) (fun _ => 0) 400 300) = none := by
  obtain ⟨rest, hcs⟩ : ∃ rest, genConstraints NUM_ROWS NUM_COLS
      = (⟨0, 1, 20⟩ : Constraint) :: rest := ⟨_, rfl⟩
  rw [runFramesChecked, hcs, frameStepChecked_zero_size_none (fun q => q) rfl
    ⟨0, 1, 20⟩ rest _ _ rfl rfl _ (by decide) (by decide)]
  rfl

/-- C10 (amended): every particle's z coordinate is 0 at initialization, and
after every frame of any run in which no structural correction meets
coincident particles (the unguarded `delta_len = 0` division of C1 — e.g.
forced by a zero-size viewport — in which case the f32 code propagates
non-finite values instead): gravity has zero z, the drag target has z = 0,
the clamp confines z to `[0,0]` and the pins store initial z = 0 positions. -/
theorem c10_z_zero_no_degenerate (sq : ℚ → ℚ) (jx jy : ℕ → ℚ) (sw sh : ℚ)
    (inps : List FrameInput) (s1 : SimState)
    (h : runFramesChecked sq (genConstraints NUM_ROWS NUM_COLS)
        (initPins jx jy sw sh) inps (initState jx jy sw sh) = some s1) :
    (∀ p, ((initState jx jy sw sh).pos p).z = 0) ∧ ∀ p, (s1.pos p).z = 0 := by
  have hinit : ZZero (initState jx jy sw sh) :=
    ⟨fun p => rfl, fun p => rfl, fun p => rfl, rfl⟩
  refine ⟨hinit.1, ?_⟩
  rw [runFramesChecked_sound sq _ _ inps _ s1 h]
  exact (runFrames_ZZero sq _ _ (initPins_z jx jy sw sh) inps _ hinit).1

/-- C10 witness: the amended theorem at zero jitters, screen 400×300 and the
empty frame list — the checked-run hypothesis holds by computation and the
pinned particle 0 has z = 0. -/
theorem c10_z_zero_no_degenerate_witness :
    ((initState (fun _ => 0) (fun _ => 0) 400 300).pos 0).z = 0
    ∧ ((initState (fun _ => 0) (fun _ => 0) 400 300).pos 55).z = 0 := by
  have h := c10_z_zero_no_degenerate (fun q => q) (fun _ => 0) (fun _ => 0)
    400 300 [] (initState (fun _ => 0) (fun _ => 0) 400 300) rfl
  exact ⟨h.2 0, h.2 55⟩

end ClothVerify
